import Mathlib

/-!
# Chanify message envelope (`model/message.go`)

A shallow embedding of the notification envelope of the chanify gateway and
of its builder and encryption operations.

Modelling conventions
* A Go `[]byte` whose nil-ness the code observes (`m.Content != nil`) is a
  `Slice = Option Bytes`, `none` being the nil slice.  Bytes are naturals
  below 256.  A slice's capacity is taken equal to its length.
* A Go `string` is a Lean `String`.  The only separator the code looks for is
  the ASCII character `|`, so splitting on characters and on bytes agree.
* Go `int` and `int64` are `Int` (64-bit platform), `uint64` is `Nat`; the
  conversions that can wrap are written out with an explicit modulus.
* A `float64` is carried as its IEEE-754 bit pattern; the code never computes
  with it.
* A `time.Time` is its `UnixNano()` value.
* The generated protobuf package, the protobuf encoder, the AES-GCM wrapper
  and the two channel constants are not part of the embedded file; they are
  the fields of `Deps`.
* A run-time panic (slicing a key shorter than 64 bytes) is `none`.
-/

namespace Chanify

/-! ## Byte slices and machine integers -/

/-- The contents of a non-nil Go byte slice. -/
abbrev Bytes := List Nat

/-- A Go byte slice, `none` for the nil slice. -/
abbrev Slice := Option Bytes

/-- Go `len` of a byte slice: zero for nil. -/
def sliceLen : Slice → Nat
  | none => 0
  | some b => b.length

/-- Go conversion `int32(v)` of a signed integer. -/
def toInt32 (v : Int) : Int := (v + 2 ^ 31) % 2 ^ 32 - 2 ^ 31

/-- Go conversion `int64(v)` of a signed integer. -/
def toInt64 (v : Int) : Int := (v + 2 ^ 63) % 2 ^ 64 - 2 ^ 63

/-- Go conversion `uint64(v)` of a signed integer. -/
def toUint64 (v : Int) : Nat := (v % 2 ^ 64).toNat

/-- Go conversion `byte(v)`. -/
def toByte (v : Nat) : Nat := v % 256

/-- The eight bytes `binary.BigEndian.PutUint64` writes for `v`. -/
def putUint64 (v : Nat) : Bytes :=
  [toByte (v >>> 56), toByte (v >>> 48), toByte (v >>> 40), toByte (v >>> 32),
   toByte (v >>> 24), toByte (v >>> 16), toByte (v >>> 8), toByte v]

/-- Go slice expression `key[lo:hi]` on a slice long enough. -/
def subslice (b : Bytes) (lo hi : Nat) : Bytes := (b.drop lo).take (hi - lo)

/-! ## The protobuf records the file fills in -/

/-- The `pb.MsgType` constants the builders use. -/
inductive MsgType where
  | Text | Link | Action | File | Image | Audio | Timeline
  deriving DecidableEq, Repr

/-- The `pb.ValueType` of a time item; `Unset` is the zero value. -/
inductive ValueType where
  | Unset | ValueTypeInteger | ValueTypeDouble
  deriving DecidableEq, Repr

/-- The `pb.ActType` constant the action parser uses. -/
inductive ActType where
  | ActURL
  deriving DecidableEq, Repr

/-- Record `pb.ActionItem`. -/
structure ActionItem where
  Typ : ActType
  Name : String
  Link : String
  deriving DecidableEq, Repr

/-- Record `pb.Thumbnail`. -/
structure PbThumbnail where
  Width : Int
  Height : Int
  Data : Slice
  deriving DecidableEq, Repr

/-- Record `pb.TimeItem`; `DoubleValue` is a bit pattern. -/
structure TimeItem where
  Name : String
  ValueType : ValueType := .Unset
  IntegerValue : Int := 0
  DoubleValue : Nat := 0
  deriving DecidableEq, Repr

/-- Record `pb.TimeContent`. -/
structure TimeContent where
  Code : String
  Timestamp : Nat
  TimeItems : List TimeItem
  deriving DecidableEq, Repr

/-- Record `pb.MsgContent`, with the fields the builders assign. -/
structure MsgContent where
  Typ : MsgType
  Text : String := ""
  Title : String := ""
  Link : String := ""
  Copytext : String := ""
  Flags : Nat := 0
  File : String := ""
  Filename : String := ""
  Size : Nat := 0
  Actions : List ActionItem := []
  Thumbnail : Option PbThumbnail := none
  TimeContent : Option TimeContent := none
  deriving DecidableEq, Repr

/-- Record `pb.Sound`. -/
structure Sound where
  Name : String
  deriving DecidableEq, Repr

/-- Record `pb.Message`, with the fields the file reads or writes.
`Priority` and `InterruptionLevel` are proto3 scalars: zero means unset. -/
structure PbMessage where
  From : Slice := none
  Channel : Slice := none
  TokenHash : Slice := none
  Content : Slice := none
  Ciphertext : Slice := none
  Priority : Int := 0
  Sound : Option Sound := none
  InterruptionLevel : Int := 0
  deriving DecidableEq, Repr

/-- The envelope: `model.Message`. -/
structure Message where
  pb : PbMessage := {}
  isTimeline : Bool := false
  ilValue : String := ""
  deriving DecidableEq, Repr

/-- A decoded token, as seen through `GetNodeID`, `GetChannel` and
`HashValue`. -/
structure Token where
  NodeID : Slice
  Channel : Slice
  Hash : Slice
  deriving DecidableEq, Repr

/-- Record `model.Thumbnail`, with the fields `ImageContent` reads. -/
structure Thumbnail where
  width : Int
  height : Int
  preview : Slice
  deriving DecidableEq, Repr

/-- The dynamic value of a timeline item (`interface{}`), by dynamic type. -/
inductive Value where
  | int (v : Int)
  | int64 (v : Int)
  | float64 (bits : Nat)
  | int32 (v : Int)
  | uint64 (v : Nat)
  | float32 (bits : Nat)
  | string (s : String)
  | bool (b : Bool)
  | nil
  | other (typeName : String)
  deriving DecidableEq, Repr

/-- Record `model.MsgTimeItem`. -/
structure MsgTimeItem where
  Name : String
  Value : Value
  deriving DecidableEq, Repr

/-- What the file takes from outside itself. -/
structure Deps where
  -- the slice proto.Marshal returns for a content record
  marshalContent : MsgContent → Slice
  -- the bytes proto.Marshal returns for the envelope record
  marshalMessage : PbMessage → Bytes
  -- NewAESGCM(key) followed by Seal(nil, nonce, plaintext, aad);
  -- the arguments are key, nonce, plaintext, additional data
  Seal : Bytes → Bytes → Bytes → Bytes → Bytes
  -- package constant defaultChannel
  defaultChannel : Slice
  -- package constant timelineChannel
  timelineChannel : Slice
  -- constant pb.InterruptionLevel_IlActive
  IlActive : Int
  -- constant pb.InterruptionLevel_IlPassive
  IlPassive : Int
  -- constant pb.InterruptionLevel_IlTimeSensitive
  IlTimeSensitive : Int

/-! ## Action parsing -/

/-- Go `strings.Index(s, "|")` on the characters of `s`. -/
def indexPipe : List Char → Option Nat
  | [] => none
  | c :: cs => if c = '|' then some 0 else (indexPipe cs).map (· + 1)

/-- Go `strings.SplitN(s, "|", 2)`: the whole string when there is no
separator, else the parts before and after the first one. -/
def SplitN2 (s : String) : List String :=
  match indexPipe s.data with
  | none => [s]
  | some i => [String.mk (s.data.take i), String.mk (s.data.drop (i + 1))]

/-- One turn of the loop of `parseActions`. -/
def parseActionsStep (acts : List ActionItem) (act : String) : List ActionItem :=
  match SplitN2 act with
  | name :: link :: _ => acts ++ [{ Typ := .ActURL, Name := name, Link := link }]
  | _ => acts

/-- Function `parseActions`.  A nil and an empty result are both `[]`. -/
def parseActions (actions : List String) : List ActionItem :=
  if actions.length ≤ 0 then []
  else
    let actions := if actions.length > 4 then actions.take 4 else actions
    actions.foldl parseActionsStep []

/-- The item `item` is what the loop of `parseActions` builds from an entry
`e` that contains the separator: a URL action whose name has no `|`, whose
name, `|` and link make up the entry, and whose link is what follows the
first `|` of the entry. -/
def ParsedFrom (item : ActionItem) (e : String) : Prop :=
  item.Typ = .ActURL ∧ '|' ∉ item.Name.data ∧ item.Name ++ "|" ++ item.Link = e ∧
    e.data.dropWhile (fun c => c != '|') = '|' :: item.Link.data

/-! ## Content records built by the setters -/

/-- The record `LinkContent` serializes. -/
def ctxLink (link : String) : MsgContent :=
  { Typ := .Link, Link := link }

/-- One turn of the loop of `TimelineContent`. -/
def timeItemsStep (tis : List TimeItem) (item : MsgTimeItem) : List TimeItem :=
  let ti : TimeItem := { Name := item.Name }
  match item.Value with
  | .int v => tis ++ [{ ti with ValueType := .ValueTypeInteger, IntegerValue := toInt64 v }]
  | .int64 v => tis ++ [{ ti with ValueType := .ValueTypeInteger, IntegerValue := v }]
  | .float64 v => tis ++ [{ ti with ValueType := .ValueTypeDouble, DoubleValue := v }]
  | _ => tis

/-- The list `tis` that the loop of `TimelineContent` builds. -/
def timeItems (items : List MsgTimeItem) : List TimeItem :=
  items.foldl timeItemsStep []

/-- Whether a value of dynamic type `int` lies in the range of the 64-bit
Go `int`, as every such value does; true for the other types. -/
def intInRange : Value → Bool
  | .int v => decide (-2 ^ 63 ≤ v ∧ v < 2 ^ 63)
  | _ => true

/-- The time item the specification keeps for an input item: integer for a
signed 64-bit integer, double for a 64-bit float, nothing otherwise. -/
def specTimeItem (item : MsgTimeItem) : Option TimeItem :=
  match item.Value with
  | .int v => some { Name := item.Name, ValueType := .ValueTypeInteger, IntegerValue := v }
  | .int64 v => some { Name := item.Name, ValueType := .ValueTypeInteger, IntegerValue := v }
  | .float64 v => some { Name := item.Name, ValueType := .ValueTypeDouble, DoubleValue := v }
  | _ => none

/-- The record `TimelineContent` serializes; `now` is what `time.Now()`
returns when `ts` is nil. -/
def ctxTimeline (code title : String) (ts : Option Int) (now : Int)
    (items : List MsgTimeItem) : MsgContent :=
  let tis := timeItems items
  let ts := match ts with
    | none => now
    | some t => t
  { Typ := .Timeline, Title := title,
    TimeContent := some { Code := code, Timestamp := toUint64 (Int.tdiv ts 1000000),
                          TimeItems := tis } }

/-- The record `TextContent` serializes. -/
def ctxText (text title copytext autocopy : String) : MsgContent :=
  let ctx : MsgContent := { Typ := .Text, Text := text }
  let ctx := if title.length > 0 then { ctx with Title := title } else ctx
  let ctx := if copytext.length > 0 then { ctx with Copytext := copytext } else ctx
  let ctx := if autocopy.length > 0 then { ctx with Flags := 1 } else ctx
  ctx

/-- The record `ActionContent` serializes. -/
def ctxAction (text title : String) (actions : List String) : MsgContent :=
  let ctx : MsgContent := { Typ := .Action, Actions := parseActions actions }
  let ctx := if title.length > 0 then { ctx with Title := title } else ctx
  let ctx := if text.length > 0 then { ctx with Text := text } else ctx
  ctx

/-- The record `FileContent` serializes. -/
def ctxFile (path filename desc : String) (size : Int) (actions : List String) :
    MsgContent :=
  let ctx : MsgContent :=
    { Typ := .File, File := path, Filename := filename, Size := toUint64 size,
      Actions := parseActions actions }
  let ctx := if desc.length > 0 then { ctx with Text := desc } else ctx
  ctx

/-- The record `ImageContent` serializes. -/
def ctxImage (path : String) (t : Option Thumbnail) (size : Int) : MsgContent :=
  let ctx : MsgContent := { Typ := .Image, File := path, Size := toUint64 size }
  match t with
  | some t =>
    let th : PbThumbnail :=
      { Width := toInt32 t.width, Height := toInt32 t.height, Data := t.preview }
    { ctx with Thumbnail := some th }
  | none => ctx

/-- The record `AudioContent` serializes; the duration is not used. -/
def ctxAudio (path fname title : String) (_duration : Nat) (size : Int) : MsgContent :=
  { Typ := .Audio, File := path, Size := toUint64 size, Filename := fname, Title := title }

/-- The record `TextFileContent` serializes. -/
def ctxTextFile (path filename title desc : String) (size : Int)
    (actions : List String) : MsgContent :=
  let ctx : MsgContent :=
    { Typ := .File, File := path, Filename := filename, Size := toUint64 size,
      Actions := parseActions actions }
  let ctx := if title.length > 0 then { ctx with Title := title } else ctx
  let ctx := if desc.length > 0 then { ctx with Text := desc } else ctx
  ctx

/-! ## The envelope operations -/

/-- Function `NewMessage`. -/
def NewMessage (tk : Token) : Message :=
  { pb := { From := tk.NodeID, Channel := tk.Channel, TokenHash := tk.Hash },
    isTimeline := false }

/-- Method `DisableToken`. -/
def DisableToken (m : Message) : Message :=
  { m with pb := { m.pb with From := none, Channel := none } }

/-- The assignment `m.Content, _ = proto.Marshal(ctx)`. -/
def setContent (d : Deps) (ctx : MsgContent) (m : Message) : Message :=
  { m with pb := { m.pb with Content := d.marshalContent ctx } }

/-- Method `LinkContent`. -/
def LinkContent (d : Deps) (link : String) (m : Message) : Message :=
  setContent d (ctxLink link) m

/-- Method `TimelineContent`. -/
def TimelineContent (d : Deps) (code title : String) (ts : Option Int) (now : Int)
    (items : List MsgTimeItem) (m : Message) : Message :=
  let m := setContent d (ctxTimeline code title ts now items) m
  { m with isTimeline := true }

/-- Method `TextContent`. -/
def TextContent (d : Deps) (text title copytext autocopy : String) (m : Message) :
    Message :=
  setContent d (ctxText text title copytext autocopy) m

/-- Method `ActionContent`. -/
def ActionContent (d : Deps) (text title : String) (actions : List String)
    (m : Message) : Message :=
  setContent d (ctxAction text title actions) m

/-- Method `FileContent`. -/
def FileContent (d : Deps) (path filename desc : String) (size : Int)
    (actions : List String) (m : Message) : Message :=
  setContent d (ctxFile path filename desc size actions) m

/-- Method `ImageContent`. -/
def ImageContent (d : Deps) (path : String) (t : Option Thumbnail) (size : Int)
    (m : Message) : Message :=
  setContent d (ctxImage path t size) m

/-- Method `AudioContent`. -/
def AudioContent (d : Deps) (path fname title : String) (duration : Nat) (size : Int)
    (m : Message) : Message :=
  setContent d (ctxAudio path fname title duration size) m

/-- Method `TextFileContent`. -/
def TextFileContent (d : Deps) (path filename title desc : String) (size : Int)
    (actions : List String) (m : Message) : Message :=
  setContent d (ctxTextFile path filename title desc size actions) m

/-- Method `IsTimeline`. -/
def IsTimeline (m : Message) : Bool := m.isTimeline

/-- Method `SetTimeline`. -/
def SetTimeline (timeline : Bool) (m : Message) : Message :=
  { m with isTimeline := timeline }

/-- Method `SoundName`. -/
def SoundName (sound : String) (m : Message) : Message :=
  if sound.length > 0 ∧ sound ≠ "0" then
    { m with pb := { m.pb with Sound := some { Name := sound } } }
  else m

/-- Method `SetPriority`. -/
def SetPriority (priority : Int) (m : Message) : Message :=
  if priority > 0 ∧ priority < 0x7fffffff then
    { m with pb := { m.pb with Priority := toInt32 priority } }
  else m

/-- Method `SetInterruptionLevel`. -/
def SetInterruptionLevel (d : Deps) (interruptionLevel : String) (m : Message) :
    Message :=
  let m := { m with ilValue := interruptionLevel }
  if interruptionLevel.length > 0 then
    if interruptionLevel = "active" then
      { m with pb := { m.pb with InterruptionLevel := d.IlActive } }
    else if interruptionLevel = "passive" then
      { m with pb := { m.pb with InterruptionLevel := d.IlPassive } }
    else if interruptionLevel = "time-sensitive" then
      { m with pb := { m.pb with InterruptionLevel := d.IlTimeSensitive } }
    else m
  else m

/-- Method `EncryptContent`; `rnd` is the twelve bytes `rand.Read` writes
into the nonce.  Slicing a key shorter than 64 bytes panics. -/
def EncryptContent (d : Deps) (key rnd : Bytes) (m : Message) : Option Message :=
  match m.pb.Content with
  | some content =>
    if key.length < 64 then none
    else
      let nonce := rnd
      let data := d.Seal key nonce content (subslice key 32 (32 + 32))
      some { m with pb := { m.pb with Ciphertext := some (nonce ++ data), Content := none } }
  | none => some m

/-- Method `Marshal`. -/
def Marshal (d : Deps) (m : Message) : Bytes := d.marshalMessage m.pb

/-- Method `fixChannel`. -/
def fixChannel (d : Deps) (m : Message) : Message :=
  if sliceLen m.pb.Channel ≤ 0 then
    if m.isTimeline then { m with pb := { m.pb with Channel := d.timelineChannel } }
    else { m with pb := { m.pb with Channel := d.defaultChannel } }
  else m

/-- The nonce `EncryptData` builds for a timestamp. -/
def dataNonce (ts : Nat) : Bytes :=
  [0x01, 0x01, 0x00, 0x08] ++ putUint64 ts

/-- Method `EncryptData`: the bytes returned and the envelope as the call
leaves it.  Slicing a key shorter than 64 bytes panics. -/
def EncryptData (d : Deps) (key : Bytes) (ts : Nat) (m : Message) :
    Option (Bytes × Message) :=
  let m := fixChannel d m
  if key.length < 64 then none
  else
    let nonce := dataNonce ts
    let tag := subslice key 32 (32 + 32)
    let out := d.Seal key nonce (Marshal d m) tag
    some (nonce ++ out, m)

/-! ## Sequences of operations -/

/-- One call on an envelope, with its arguments. -/
inductive Op where
  | LinkContent (link : String)
  | TimelineContent (code title : String) (ts : Option Int) (now : Int)
      (items : List MsgTimeItem)
  | TextContent (text title copytext autocopy : String)
  | ActionContent (text title : String) (actions : List String)
  | FileContent (path filename desc : String) (size : Int) (actions : List String)
  | ImageContent (path : String) (t : Option Thumbnail) (size : Int)
  | AudioContent (path fname title : String) (duration : Nat) (size : Int)
  | TextFileContent (path filename title desc : String) (size : Int)
      (actions : List String)
  | SetTimeline (timeline : Bool)
  | SoundName (sound : String)
  | SetPriority (priority : Int)
  | SetInterruptionLevel (interruptionLevel : String)
  | DisableToken
  | EncryptContent (key rnd : Bytes)
  | EncryptData (key : Bytes) (ts : Nat)
  deriving DecidableEq, Repr

/-- The content record a content-setting call serializes; `none` for the
calls that are not content setters. -/
def Op.payload : Op → Option MsgContent
  | .LinkContent link => some (ctxLink link)
  | .TimelineContent code title ts now items => some (ctxTimeline code title ts now items)
  | .TextContent text title copytext autocopy => some (ctxText text title copytext autocopy)
  | .ActionContent text title actions => some (ctxAction text title actions)
  | .FileContent path filename desc size actions =>
    some (ctxFile path filename desc size actions)
  | .ImageContent path t size => some (ctxImage path t size)
  | .AudioContent path fname title duration size =>
    some (ctxAudio path fname title duration size)
  | .TextFileContent path filename title desc size actions =>
    some (ctxTextFile path filename title desc size actions)
  | _ => none

/-- Whether the call is one of the eight content setters. -/
def Op.isContentSetter (op : Op) : Bool := op.payload.isSome

/-- The effect of one call on the envelope; `none` when the call panics. -/
def applyOp (d : Deps) : Op → Message → Option Message
  | .LinkContent link, m => some (LinkContent d link m)
  | .TimelineContent code title ts now items, m =>
    some (TimelineContent d code title ts now items m)
  | .TextContent text title copytext autocopy, m =>
    some (TextContent d text title copytext autocopy m)
  | .ActionContent text title actions, m => some (ActionContent d text title actions m)
  | .FileContent path filename desc size actions, m =>
    some (FileContent d path filename desc size actions m)
  | .ImageContent path t size, m => some (ImageContent d path t size m)
  | .AudioContent path fname title duration size, m =>
    some (AudioContent d path fname title duration size m)
  | .TextFileContent path filename title desc size actions, m =>
    some (TextFileContent d path filename title desc size actions m)
  | .SetTimeline timeline, m => some (SetTimeline timeline m)
  | .SoundName sound, m => some (SoundName sound m)
  | .SetPriority priority, m => some (SetPriority priority m)
  | .SetInterruptionLevel il, m => some (SetInterruptionLevel d il m)
  | .DisableToken, m => some (DisableToken m)
  | .EncryptContent key rnd, m => EncryptContent d key rnd m
  | .EncryptData key ts, m => (EncryptData d key ts m).map Prod.snd

/-- The calls of a list applied one after the other. -/
def runOps (d : Deps) : List Op → Message → Option Message
  | [], m => some m
  | op :: ops, m => (applyOp d op m).bind (runOps d ops)

/-- The envelope holds plaintext content and a ciphertext at once. -/
def holdsBoth (m : Message) : Prop :=
  m.pb.Content ≠ none ∧ m.pb.Ciphertext ≠ none

instance (m : Message) : Decidable (holdsBoth m) := by
  unfold holdsBoth
  infer_instance

/-- The envelopes reachable from `NewMessage tk` by calls in which no content
setter is applied to an envelope that already holds a ciphertext. -/
inductive ReachSetterFirst (d : Deps) (tk : Token) : Message → Prop where
  | init : ReachSetterFirst d tk (NewMessage tk)
  | step (m m2 : Message) (op : Op) :
      ReachSetterFirst d tk m →
      (op.isContentSetter = true → m.pb.Ciphertext = none) →
      applyOp d op m = some m2 →
      ReachSetterFirst d tk m2

/-- The type of the current payload after a list of calls, `t0` being its
type before them: the type of the record the last content setter serialized. -/
def payloadTypeAfter (t0 : Option MsgType) : List Op → Option MsgType
  | [] => t0
  | op :: ops =>
    payloadTypeAfter (match op.payload with
      | some ctx => some ctx.Typ
      | none => t0) ops

/-- The type of the payload of an envelope built from `NewMessage` by a list
of calls; `none` when the list has no content setter. -/
def lastPayloadType (ops : List Op) : Option MsgType := payloadTypeAfter none ops

/-- The timeline flag after one call, `b` being the flag before it. -/
def flagStep (b : Bool) : Op → Bool
  | .TimelineContent _ _ _ _ _ => true
  | .SetTimeline timeline => timeline
  | _ => b

/-- The timeline flag after a list of calls. -/
def timelineFlag (b : Bool) : List Op → Bool
  | [] => b
  | op :: ops => timelineFlag (flagStep b op) ops

/-- The list has no `SetTimeline` call and no content setter other than
`TimelineContent` after a `TimelineContent`; `seen` says whether a
`TimelineContent` came before the list. -/
def payloadTracked (seen : Bool) : List Op → Bool
  | [] => true
  | op :: ops =>
    match op with
    | .SetTimeline _ => false
    | .TimelineContent _ _ _ _ _ => payloadTracked true ops
    | _ => if op.isContentSetter && seen then false else payloadTracked seen ops

/-- A stand-in for the outside parts, used to evaluate the operations on
concrete inputs: the content encoder keeps the type and the text length, the
envelope encoder keeps the channel, and the cipher returns the plaintext
followed by the first byte of the additional data. -/
def sampleDeps : Deps :=
  { marshalContent := fun ctx => some [(if ctx.Typ = .Timeline then 8 else 1), ctx.Text.length]
    marshalMessage := fun pb => pb.Channel.getD []
    Seal := fun _key _nonce plaintext aad => plaintext ++ aad.take 1
    defaultChannel := some [0]
    timelineChannel := some [1]
    IlActive := 1
    IlPassive := 2
    IlTimeSensitive := 3 }

/-- A token with no channel. -/
def sampleToken : Token := { NodeID := some [7], Channel := none, Hash := some [9] }

/-- A 64-byte key. -/
def sampleKey : Bytes := List.replicate 32 1 ++ List.replicate 32 2

/-! ## Request signatures -/

/-- Modelled from the spec: function `verifySign` of package `core`, whose
file is not among the sources (only its test is).  It returns false at once
when the signature or the key is empty; otherwise it computes the expected
signature over the message with the key and compares it with the supplied
one.  The expected-signature computation, which the spec leaves open, is the
parameter `expected`. -/
def verifySign (expected : Slice → Slice → String) (signature : String)
    (message key : Slice) : Bool :=
  if signature.length = 0 ∨ sliceLen key = 0 then false
  else decide (expected message key = signature)

/-! ## Theorems -/

theorem putUint64_length (v : Nat) : (putUint64 v).length = 8 := rfl

theorem putUint64_lt (v : Nat) : ∀ b ∈ putUint64 v, b < 256 := by
  intro b hb
  simp only [putUint64, toByte, List.mem_cons, List.mem_singleton, List.not_mem_nil,
    or_false] at hb
  rcases hb with h | h | h | h | h | h | h | h <;> subst h <;> exact Nat.mod_lt _ (by decide)

theorem putUint64_value (v : Nat) (hv : v < 2 ^ 64) :
    Nat.ofDigits 256 (putUint64 v).reverse = v := by
  simp only [putUint64, toByte, List.reverse_cons, List.reverse_nil, List.nil_append,
    List.cons_append, Nat.ofDigits_cons, Nat.ofDigits_nil, Nat.shiftRight_eq_div_pow]
  norm_num at hv ⊢
  omega

theorem dataNonce_take (ts : Nat) (rest : Bytes) :
    (dataNonce ts ++ rest).take 12 = dataNonce ts := by
  simp [dataNonce, putUint64]

theorem dataNonce_drop (ts : Nat) (rest : Bytes) :
    (dataNonce ts ++ rest).drop 12 = rest := by
  simp [dataNonce, putUint64]

theorem EncryptData_eq (d : Deps) (key : Bytes) (ts : Nat) (m : Message)
    (hk : 64 ≤ key.length) :
    EncryptData d key ts m =
      some (dataNonce ts ++
              d.Seal key (dataNonce ts) (d.marshalMessage (fixChannel d m).pb)
                (subslice key 32 64),
            fixChannel d m) := by
  simp [EncryptData, Marshal, Nat.not_lt.mpr hk]

/-- C1: for a 64-byte key and a timestamp below 2^64, `EncryptData` returns
bytes whose first four are 01 01 00 08, whose next eight are the big-endian
digits of the timestamp, and whose remainder is the seal, under those twelve
bytes as nonce and with additional data `key[32:64]`, of the serialization of
the envelope after channel defaulting. -/
theorem C1_EncryptData_wire_format (d : Deps) (m : Message) (key : Bytes) (ts : Nat)
    (hk : key.length = 64) (hts : ts < 2 ^ 64) :
    ∃ out m2, EncryptData d key ts m = some (out, m2) ∧
      m2 = fixChannel d m ∧
      out.take 4 = [0x01, 0x01, 0x00, 0x08] ∧
      ((out.take 12).drop 4).length = 8 ∧
      (∀ b ∈ (out.take 12).drop 4, b < 256) ∧
      Nat.ofDigits 256 ((out.take 12).drop 4).reverse = ts ∧
      out.drop 12 =
        d.Seal key (out.take 12) (d.marshalMessage m2.pb) ((key.drop 32).take 32) := by
  refine ⟨_, _, EncryptData_eq d key ts m (by omega), rfl, ?_⟩
  rw [dataNonce_take, dataNonce_drop]
  have h4 : (dataNonce ts).drop 4 = putUint64 ts := by simp [dataNonce]
  rw [h4]
  refine ⟨by simp [dataNonce], putUint64_length ts, putUint64_lt ts,
    putUint64_value ts hts, ?_⟩
  simp [subslice]

/-- Witness for C1 on the sample key, timestamp 258 and a new envelope. -/
theorem C1_EncryptData_wire_format_witness :
    ∃ out m2, EncryptData sampleDeps sampleKey 258 (NewMessage sampleToken) = some (out, m2) ∧
      m2 = fixChannel sampleDeps (NewMessage sampleToken) ∧
      out.take 4 = [0x01, 0x01, 0x00, 0x08] ∧
      ((out.take 12).drop 4).length = 8 ∧
      (∀ b ∈ (out.take 12).drop 4, b < 256) ∧
      Nat.ofDigits 256 ((out.take 12).drop 4).reverse = 258 ∧
      out.drop 12 =
        sampleDeps.Seal sampleKey (out.take 12) (sampleDeps.marshalMessage m2.pb)
          ((sampleKey.drop 32).take 32) :=
  C1_EncryptData_wire_format sampleDeps (NewMessage sampleToken) sampleKey 258
    (by decide) (by norm_num)

theorem EncryptData_short_key (d : Deps) (key : Bytes) (ts : Nat) (m : Message)
    (hk : key.length < 64) : EncryptData d key ts m = none := by
  simp [EncryptData, hk]

/-- C2: two `EncryptData` calls with the same key and timestamp, on any two
envelopes, both return when the key has at least 64 bytes, and the first
twelve bytes of both results are the same nonce, which is `dataNonce ts`, a
function of the timestamp alone; with a shorter key neither call returns. -/
theorem C2_EncryptData_nonce_deterministic (d : Deps) (key : Bytes) (ts : Nat)
    (m1 m2 : Message) :
    (key.length < 64 → EncryptData d key ts m1 = none ∧ EncryptData d key ts m2 = none) ∧
    (64 ≤ key.length →
      ∃ o1 e1 o2 e2, EncryptData d key ts m1 = some (o1, e1) ∧
        EncryptData d key ts m2 = some (o2, e2) ∧
        o1.take 12 = o2.take 12 ∧ o1.take 12 = dataNonce ts ∧ (dataNonce ts).length = 12) := by
  refine ⟨fun hk => ⟨EncryptData_short_key d key ts m1 hk, EncryptData_short_key d key ts m2 hk⟩,
    fun hk => ⟨_, _, _, _, EncryptData_eq d key ts m1 hk, EncryptData_eq d key ts m2 hk, ?_⟩⟩
  rw [dataNonce_take, dataNonce_take]
  exact ⟨rfl, rfl, rfl⟩

/-- Witness for C2: a text envelope and a timeline envelope sealed with the
sample key at timestamp 258 carry the same nonce. -/
theorem C2_EncryptData_nonce_deterministic_witness :
    64 ≤ sampleKey.length ∧
    ∃ o1 e1 o2 e2,
      EncryptData sampleDeps sampleKey 258
        (TextContent sampleDeps "hi" "" "" "" (NewMessage sampleToken)) = some (o1, e1) ∧
      EncryptData sampleDeps sampleKey 258
        (TimelineContent sampleDeps "c" "t" none 0 [] (NewMessage sampleToken)) = some (o2, e2) ∧
      o1.take 12 = o2.take 12 ∧ o1.take 12 = dataNonce 258 ∧ (dataNonce 258).length = 12 :=
  ⟨by decide, (C2_EncryptData_nonce_deterministic sampleDeps sampleKey 258 _ _).2 (by decide)⟩

/-- C3: on an envelope holding plaintext content, with a 64-byte key and
twelve random bytes as nonce, `EncryptContent` returns; afterwards the
ciphertext is the nonce followed by the seal of the former content under that
nonce with additional data `key[32:64]`, and the content is nil. -/
theorem C3_EncryptContent_seals_content (d : Deps) (m : Message) (key rnd content : Bytes)
    (hc : m.pb.Content = some content) (hk : key.length = 64) (hr : rnd.length = 12) :
    ∃ m2 ct, EncryptContent d key rnd m = some m2 ∧
      m2.pb.Ciphertext = some ct ∧
      ct.take 12 = rnd ∧
      ct.drop 12 = d.Seal key rnd content ((key.drop 32).take 32) ∧
      ct = rnd ++ d.Seal key rnd content ((key.drop 32).take 32) ∧
      m2.pb.Content = none := by
  refine ⟨{ m with pb := { m.pb with
      Ciphertext := some (rnd ++ d.Seal key rnd content ((key.drop 32).take 32)),
      Content := none } },
    rnd ++ d.Seal key rnd content ((key.drop 32).take 32), ?_, rfl, ?_, ?_, rfl, rfl⟩
  · simp [EncryptContent, hc, hk, subslice]
  · simp [List.take_append_of_le_length, hr.ge, ← hr]
  · simp [List.drop_append_of_le_length, hr.ge, ← hr]

/-- Witness for C3: a text envelope, the sample key and the nonce 0..11. -/
theorem C3_EncryptContent_seals_content_witness :
    ∃ m2 ct, EncryptContent sampleDeps sampleKey (List.range 12)
        (TextContent sampleDeps "hi" "" "" "" (NewMessage sampleToken)) = some m2 ∧
      m2.pb.Ciphertext = some ct ∧
      ct.take 12 = List.range 12 ∧
      ct.drop 12 = sampleDeps.Seal sampleKey (List.range 12) [1, 2] ((sampleKey.drop 32).take 32) ∧
      ct = List.range 12 ++
        sampleDeps.Seal sampleKey (List.range 12) [1, 2] ((sampleKey.drop 32).take 32) ∧
      m2.pb.Content = none :=
  C3_EncryptContent_seals_content sampleDeps _ sampleKey (List.range 12) [1, 2]
    (by decide) (by decide) (by decide)

/-- C4: on an envelope with nil content `EncryptContent` returns the envelope
unchanged, for every key (short ones included) and whatever ciphertext it
holds; and whenever a first `EncryptContent` returns, a second one, with any
key and nonce, returns the envelope the first one left. -/
theorem C4_EncryptContent_noop (d : Deps) (m : Message) :
    (m.pb.Content = none → ∀ key rnd, EncryptContent d key rnd m = some m) ∧
    (∀ key1 rnd1 m1, EncryptContent d key1 rnd1 m = some m1 →
      ∀ key2 rnd2, EncryptContent d key2 rnd2 m1 = some m1) := by
  have h0 : ∀ (e : Message), e.pb.Content = none →
      ∀ key rnd, EncryptContent d key rnd e = some e := by
    intro e he key rnd
    simp [EncryptContent, he]
  refine ⟨h0 m, ?_⟩
  intro key1 rnd1 m1 h1 key2 rnd2
  apply h0
  unfold EncryptContent at h1
  split at h1
  · split at h1
    · exact absurd h1 (by simp)
    · simp only [Option.some.injEq] at h1
      rw [← h1]
  · simp only [Option.some.injEq] at h1
    rw [← h1]
    assumption

/-- Witness for C4: an envelope with a stored ciphertext and no content is
left as it is, and encrypting a text envelope twice equals encrypting it once. -/
theorem C4_EncryptContent_noop_witness :
    (∀ key rnd, EncryptContent sampleDeps key rnd
        { pb := { Ciphertext := some [5, 6] } } = some { pb := { Ciphertext := some [5, 6] } }) ∧
    (∀ key2 rnd2, EncryptContent sampleDeps key2 rnd2
        { pb := { From := some [7], TokenHash := some [9],
                  Ciphertext := some (List.range 12 ++ [1, 2, 2]) } } =
      some { pb := { From := some [7], TokenHash := some [9],
                     Ciphertext := some (List.range 12 ++ [1, 2, 2]) } }) :=
  ⟨(C4_EncryptContent_noop sampleDeps { pb := { Ciphertext := some [5, 6] } }).1 (by decide),
   (C4_EncryptContent_noop sampleDeps
      (TextContent sampleDeps "hi" "" "" "" (NewMessage sampleToken))).2
      sampleKey (List.range 12) _ (by decide)⟩

/-! ### Frame lemmas for single calls -/

theorem setContent_Ciphertext (d : Deps) (ctx : MsgContent) (m : Message) :
    (setContent d ctx m).pb.Ciphertext = m.pb.Ciphertext := rfl

theorem setContent_isTimeline (d : Deps) (ctx : MsgContent) (m : Message) :
    (setContent d ctx m).isTimeline = m.isTimeline := rfl

theorem EncryptContent_some (d : Deps) (key rnd : Bytes) (m m2 : Message)
    (h : EncryptContent d key rnd m = some m2) :
    m2.pb.Content = none ∧ m2.isTimeline = m.isTimeline ∧ m2.pb.Channel = m.pb.Channel := by
  unfold EncryptContent at h
  split at h
  · split at h
    · exact absurd h (by simp)
    · simp only [Option.some.injEq] at h
      subst h
      exact ⟨rfl, rfl, rfl⟩
  · simp only [Option.some.injEq] at h
    subst h
    exact ⟨by assumption, rfl, rfl⟩

theorem fixChannel_frame (d : Deps) (m : Message) :
    (fixChannel d m).pb.Content = m.pb.Content ∧
    (fixChannel d m).pb.Ciphertext = m.pb.Ciphertext ∧
    (fixChannel d m).isTimeline = m.isTimeline := by
  unfold fixChannel
  split
  · split <;> exact ⟨rfl, rfl, rfl⟩
  · exact ⟨rfl, rfl, rfl⟩

theorem EncryptData_some (d : Deps) (key : Bytes) (ts : Nat) (m : Message)
    (r : Bytes × Message) (h : EncryptData d key ts m = some r) :
    r.2 = fixChannel d m := by
  unfold EncryptData at h
  simp only at h
  split at h
  · exact absurd h (by simp)
  · simp only [Option.some.injEq] at h
    subst h
    rfl

theorem SoundName_frame (sound : String) (m : Message) :
    (SoundName sound m).pb.Content = m.pb.Content ∧
    (SoundName sound m).pb.Ciphertext = m.pb.Ciphertext ∧
    (SoundName sound m).isTimeline = m.isTimeline := by
  unfold SoundName
  split <;> exact ⟨rfl, rfl, rfl⟩

theorem SetPriority_frame (priority : Int) (m : Message) :
    (SetPriority priority m).pb.Content = m.pb.Content ∧
    (SetPriority priority m).pb.Ciphertext = m.pb.Ciphertext ∧
    (SetPriority priority m).isTimeline = m.isTimeline := by
  unfold SetPriority
  split <;> exact ⟨rfl, rfl, rfl⟩

theorem SetInterruptionLevel_frame (d : Deps) (il : String) (m : Message) :
    (SetInterruptionLevel d il m).pb.Content = m.pb.Content ∧
    (SetInterruptionLevel d il m).pb.Ciphertext = m.pb.Ciphertext ∧
    (SetInterruptionLevel d il m).isTimeline = m.isTimeline := by
  unfold SetInterruptionLevel
  simp only
  split
  · split
    · exact ⟨rfl, rfl, rfl⟩
    · split
      · exact ⟨rfl, rfl, rfl⟩
      · split <;> exact ⟨rfl, rfl, rfl⟩
  · exact ⟨rfl, rfl, rfl⟩

/-- A content setter leaves the ciphertext as it was. -/
theorem applyOp_setter_Ciphertext (d : Deps) (op : Op) (m m2 : Message)
    (hs : op.isContentSetter = true) (h : applyOp d op m = some m2) :
    m2.pb.Ciphertext = m.pb.Ciphertext := by
  cases op <;> simp [Op.isContentSetter, Op.payload] at hs <;>
    simp only [applyOp, Option.some.injEq] at h <;> subst h <;> rfl

/-- A call that is not a content setter never makes an envelope hold both. -/
theorem applyOp_other_holdsBoth (d : Deps) (op : Op) (m m2 : Message)
    (hs : op.isContentSetter = false) (h : applyOp d op m = some m2)
    (hm : ¬ holdsBoth m) : ¬ holdsBoth m2 := by
  cases op <;> simp [Op.isContentSetter, Op.payload] at hs
  case SetTimeline b =>
    simp only [applyOp, Option.some.injEq] at h; subst h; exact hm
  case SoundName s =>
    simp only [applyOp, Option.some.injEq] at h; subst h
    have hf := SoundName_frame s m
    simpa [holdsBoth, hf.1, hf.2.1] using hm
  case SetPriority p =>
    simp only [applyOp, Option.some.injEq] at h; subst h
    have hf := SetPriority_frame p m
    simpa [holdsBoth, hf.1, hf.2.1] using hm
  case SetInterruptionLevel s =>
    simp only [applyOp, Option.some.injEq] at h; subst h
    have hf := SetInterruptionLevel_frame d s m
    simpa [holdsBoth, hf.1, hf.2.1] using hm
  case DisableToken =>
    simp only [applyOp, Option.some.injEq] at h; subst h; exact hm
  case EncryptContent key rnd =>
    simp only [applyOp] at h
    have hf := EncryptContent_some d key rnd m m2 h
    simp [holdsBoth, hf.1]
  case EncryptData key ts =>
    simp only [applyOp] at h
    cases hr : EncryptData d key ts m with
    | none => simp [hr] at h
    | some r =>
      rw [hr] at h
      simp only [Option.map, Option.some.injEq] at h
      subst h
      have hf := fixChannel_frame d m
      rw [EncryptData_some d key ts m r hr]
      simpa [holdsBoth, hf.1, hf.2.1] using hm

/-- C5 (as stated, refuted): setting text, encrypting the content and setting
text again leaves an envelope that holds plaintext content and a ciphertext
at once. -/
theorem C5_holdsBoth_counterexample :
    ∃ m, runOps sampleDeps
        [Op.TextContent "a" "" "" "", Op.EncryptContent sampleKey (List.range 12),
         Op.TextContent "b" "" "" ""] (NewMessage sampleToken) = some m ∧
      holdsBoth m :=
  ⟨_, rfl, by decide⟩

/-- C5 (amended): an envelope reached from `NewMessage` by calls in which no
content setter is applied to an envelope already holding a ciphertext never
holds plaintext content and a ciphertext at once. -/
theorem C5_never_both (d : Deps) (tk : Token) (m : Message)
    (h : ReachSetterFirst d tk m) : ¬ holdsBoth m := by
  induction h with
  | init => simp [holdsBoth, NewMessage]
  | step m m2 op _ hguard hrun ih =>
    cases hs : op.isContentSetter with
    | true =>
      have hc := applyOp_setter_Ciphertext d op m m2 hs hrun
      simp [holdsBoth, hc, hguard hs]
    | false => exact applyOp_other_holdsBoth d op m m2 hs hrun ih

/-- Witness for C5 (amended): a text envelope whose content was encrypted. -/
theorem C5_never_both_witness :
    ReachSetterFirst sampleDeps sampleToken
      { pb := { From := some [7], TokenHash := some [9],
                Ciphertext := some (List.range 12 ++ [1, 2, 2]) } } ∧
    ¬ holdsBoth
      { pb := { From := some [7], TokenHash := some [9],
                Ciphertext := some (List.range 12 ++ [1, 2, 2]) } } :=
  (fun h => ⟨h, C5_never_both sampleDeps sampleToken _ h⟩)
    (ReachSetterFirst.step _ _ (Op.EncryptContent sampleKey (List.range 12))
      (ReachSetterFirst.step _ _ (Op.TextContent "hi" "" "" "") ReachSetterFirst.init
        (fun _ => rfl) rfl)
      (fun h => absurd h (by decide)) (by decide))

/-! ### The timeline flag -/

theorem ctxText_Typ (text title copytext autocopy : String) :
    (ctxText text title copytext autocopy).Typ = .Text := by
  unfold ctxText
  simp only
  split_ifs <;> rfl

theorem ctxAction_Typ (text title : String) (actions : List String) :
    (ctxAction text title actions).Typ = .Action := by
  unfold ctxAction
  simp only
  split_ifs <;> rfl

theorem ctxFile_Typ (path filename desc : String) (size : Int) (actions : List String) :
    (ctxFile path filename desc size actions).Typ = .File := by
  unfold ctxFile
  simp only
  split_ifs <;> rfl

theorem ctxImage_Typ (path : String) (t : Option Thumbnail) (size : Int) :
    (ctxImage path t size).Typ = .Image := by
  unfold ctxImage
  cases t <;> rfl

theorem ctxTextFile_Typ (path filename title desc : String) (size : Int)
    (actions : List String) :
    (ctxTextFile path filename title desc size actions).Typ = .File := by
  unfold ctxTextFile
  simp only
  split_ifs <;> rfl

/-- Every call leaves the flag at `flagStep` of its former value. -/
theorem applyOp_isTimeline (d : Deps) (op : Op) (m m2 : Message)
    (h : applyOp d op m = some m2) : m2.isTimeline = flagStep m.isTimeline op := by
  cases op
  case SoundName s =>
    simp only [applyOp, Option.some.injEq] at h; subst h
    exact (SoundName_frame s m).2.2
  case SetPriority p =>
    simp only [applyOp, Option.some.injEq] at h; subst h
    exact (SetPriority_frame p m).2.2
  case SetInterruptionLevel s =>
    simp only [applyOp, Option.some.injEq] at h; subst h
    exact (SetInterruptionLevel_frame d s m).2.2
  case EncryptContent key rnd =>
    simp only [applyOp] at h
    exact (EncryptContent_some d key rnd m m2 h).2.1
  case EncryptData key ts =>
    simp only [applyOp] at h
    cases hr : EncryptData d key ts m with
    | none => simp [hr] at h
    | some r =>
      rw [hr] at h
      simp only [Option.map, Option.some.injEq] at h
      subst h
      rw [EncryptData_some d key ts m r hr]
      exact (fixChannel_frame d m).2.2
  all_goals
    simp only [applyOp, Option.some.injEq] at h
    subst h
    rfl

/-- After a list of calls the flag is `timelineFlag` of its former value. -/
theorem runOps_isTimeline (d : Deps) (ops : List Op) :
    ∀ (m m2 : Message), runOps d ops m = some m2 →
      m2.isTimeline = timelineFlag m.isTimeline ops := by
  induction ops with
  | nil =>
    intro m m2 h
    simp only [runOps, Option.some.injEq] at h
    subst h
    rfl
  | cons op ops ih =>
    intro m m2 h
    simp only [runOps] at h
    cases h1 : applyOp d op m with
    | none => simp [h1] at h
    | some m1 =>
      rw [h1] at h
      simp only [Option.bind] at h
      rw [ih m1 m2 h, applyOp_isTimeline d op m m1 h1]
      rfl

/-- Under `payloadTracked` the flag tells whether the payload is a timeline. -/
theorem payloadTracked_flag (ops : List Op) :
    ∀ (seen : Bool) (t0 : Option MsgType), payloadTracked seen ops = true →
      (seen = true ↔ t0 = some MsgType.Timeline) →
      (timelineFlag seen ops = true ↔ payloadTypeAfter t0 ops = some MsgType.Timeline) := by
  induction ops with
  | nil => intro seen t0 _ h0; simpa [timelineFlag, payloadTypeAfter] using h0
  | cons op ops ih =>
    intro seen t0 htr h0
    cases op
    case SetTimeline b => simp [payloadTracked] at htr
    case TimelineContent code title ts now items =>
      simp only [payloadTracked] at htr
      simp only [timelineFlag, flagStep, payloadTypeAfter, Op.payload]
      exact ih true _ htr (by simp [ctxTimeline])
    case LinkContent link =>
      simp only [payloadTracked, Op.isContentSetter, Op.payload, Option.isSome_some,
        Bool.true_and] at htr
      cases seen <;> simp at htr
      simp only [timelineFlag, flagStep, payloadTypeAfter, Op.payload]
      exact ih false _ htr (by simp [ctxLink])
    case TextContent text title copytext autocopy =>
      simp only [payloadTracked, Op.isContentSetter, Op.payload, Option.isSome_some,
        Bool.true_and] at htr
      cases seen <;> simp at htr
      simp only [timelineFlag, flagStep, payloadTypeAfter, Op.payload]
      exact ih false _ htr (by simp [ctxText_Typ])
    case ActionContent text title actions =>
      simp only [payloadTracked, Op.isContentSetter, Op.payload, Option.isSome_some,
        Bool.true_and] at htr
      cases seen <;> simp at htr
      simp only [timelineFlag, flagStep, payloadTypeAfter, Op.payload]
      exact ih false _ htr (by simp [ctxAction_Typ])
    case FileContent path filename desc size actions =>
      simp only [payloadTracked, Op.isContentSetter, Op.payload, Option.isSome_some,
        Bool.true_and] at htr
      cases seen <;> simp at htr
      simp only [timelineFlag, flagStep, payloadTypeAfter, Op.payload]
      exact ih false _ htr (by simp [ctxFile_Typ])
    case ImageContent path t size =>
      simp only [payloadTracked, Op.isContentSetter, Op.payload, Option.isSome_some,
        Bool.true_and] at htr
      cases seen <;> simp at htr
      simp only [timelineFlag, flagStep, payloadTypeAfter, Op.payload]
      exact ih false _ htr (by simp [ctxImage_Typ])
    case AudioContent path fname title duration size =>
      simp only [payloadTracked, Op.isContentSetter, Op.payload, Option.isSome_some,
        Bool.true_and] at htr
      cases seen <;> simp at htr
      simp only [timelineFlag, flagStep, payloadTypeAfter, Op.payload]
      exact ih false _ htr (by simp [ctxAudio])
    case TextFileContent path filename title desc size actions =>
      simp only [payloadTracked, Op.isContentSetter, Op.payload, Option.isSome_some,
        Bool.true_and] at htr
      cases seen <;> simp at htr
      simp only [timelineFlag, flagStep, payloadTypeAfter, Op.payload]
      exact ih false _ htr (by simp [ctxTextFile_Typ])
    all_goals
      simp only [payloadTracked, Op.isContentSetter, Op.payload, Option.isSome_none,
        Bool.false_and] at htr
      simp only [timelineFlag, flagStep, payloadTypeAfter, Op.payload]
      exact ih seen t0 (by simpa using htr) h0

/-- C6 (as stated, refuted): with an empty channel, a text payload set after a
timeline payload, and a text payload followed by `SetTimeline(true)`, are both
sent to the timeline channel although the current payload is a text. -/
theorem C6_channel_follows_payload_counterexample :
    (∃ m out m2,
      runOps sampleDeps [Op.TimelineContent "c" "t" none 0 [], Op.TextContent "hi" "" "" ""]
        (NewMessage sampleToken) = some m ∧
      sliceLen m.pb.Channel = 0 ∧
      m.pb.Content = sampleDeps.marshalContent (ctxText "hi" "" "" "") ∧
      (ctxText "hi" "" "" "").Typ = MsgType.Text ∧
      lastPayloadType [Op.TimelineContent "c" "t" none 0 [], Op.TextContent "hi" "" "" ""]
        = some MsgType.Text ∧
      EncryptData sampleDeps sampleKey 258 m = some (out, m2) ∧
      m2.pb.Channel = sampleDeps.timelineChannel ∧
      m2.pb.Channel ≠ sampleDeps.defaultChannel) ∧
    (∃ m out m2,
      runOps sampleDeps [Op.TextContent "hi" "" "" "", Op.SetTimeline true]
        (NewMessage sampleToken) = some m ∧
      sliceLen m.pb.Channel = 0 ∧
      m.pb.Content = sampleDeps.marshalContent (ctxText "hi" "" "" "") ∧
      lastPayloadType [Op.TextContent "hi" "" "" "", Op.SetTimeline true]
        = some MsgType.Text ∧
      EncryptData sampleDeps sampleKey 258 m = some (out, m2) ∧
      m2.pb.Channel = sampleDeps.timelineChannel ∧
      m2.pb.Channel ≠ sampleDeps.defaultChannel) :=
  ⟨⟨_, _, _, rfl, by decide, by decide, by decide, by decide, rfl, by decide, by decide⟩,
   ⟨_, _, _, rfl, by decide, by decide, by decide, rfl, by decide, by decide⟩⟩

/-- C6 (amended): on an envelope built from `NewMessage` whose channel is
empty, `EncryptData` with a key of at least 64 bytes returns and sets the
channel to the timeline channel when the timeline flag is set and to the
default channel otherwise; the flag is what `TimelineContent` (true) and
`SetTimeline` (its argument) last wrote, false if neither was called.  When
the calls contain no `SetTimeline` and no other content setter after a
`TimelineContent`, this is the timeline channel exactly when the current
payload is a Timeline. -/
theorem C6_channel_default (d : Deps) (tk : Token) (ops : List Op) (m : Message)
    (key : Bytes) (ts : Nat)
    (hrun : runOps d ops (NewMessage tk) = some m)
    (hch : sliceLen m.pb.Channel = 0) (hk : 64 ≤ key.length) :
    ∃ out m2, EncryptData d key ts m = some (out, m2) ∧
      m.isTimeline = timelineFlag false ops ∧
      m2.pb.Channel =
        (if timelineFlag false ops = true then d.timelineChannel else d.defaultChannel) ∧
      (payloadTracked false ops = true →
        m2.pb.Channel =
          (if lastPayloadType ops = some MsgType.Timeline then d.timelineChannel
           else d.defaultChannel)) := by
  have hflag : m.isTimeline = timelineFlag false ops := runOps_isTimeline d ops _ m hrun
  have hchan : (fixChannel d m).pb.Channel =
      (if timelineFlag false ops = true then d.timelineChannel else d.defaultChannel) := by
    unfold fixChannel
    rw [if_pos (by omega), hflag]
    split <;> rfl
  refine ⟨_, _, EncryptData_eq d key ts m hk, hflag, hchan, ?_⟩
  intro htr
  rw [hchan]
  have : timelineFlag false ops = true ↔ lastPayloadType ops = some MsgType.Timeline :=
    payloadTracked_flag ops false none htr (by simp)
  by_cases hf : timelineFlag false ops = true
  · rw [if_pos hf, if_pos (this.mp hf)]
  · rw [if_neg hf, if_neg (fun h => hf (this.mpr h))]

/-- Witness for C6 (amended): a timeline envelope with no channel goes to the
timeline channel. -/
theorem C6_channel_default_witness :
    ∃ out m2, EncryptData sampleDeps sampleKey 258
        (TimelineContent sampleDeps "c" "t" none 0 [] (NewMessage sampleToken)) = some (out, m2) ∧
      (TimelineContent sampleDeps "c" "t" none 0 [] (NewMessage sampleToken)).isTimeline =
        timelineFlag false [Op.TimelineContent "c" "t" none 0 []] ∧
      m2.pb.Channel =
        (if timelineFlag false [Op.TimelineContent "c" "t" none 0 []] = true
         then sampleDeps.timelineChannel else sampleDeps.defaultChannel) ∧
      (payloadTracked false [Op.TimelineContent "c" "t" none 0 []] = true →
        m2.pb.Channel =
          (if lastPayloadType [Op.TimelineContent "c" "t" none 0 []] = some MsgType.Timeline
           then sampleDeps.timelineChannel else sampleDeps.defaultChannel)) :=
  C6_channel_default sampleDeps sampleToken [Op.TimelineContent "c" "t" none 0 []] _
    sampleKey 258 rfl (by decide) (by decide)

/-! ### Action parsing -/

theorem indexPipe_none (cs : List Char) : indexPipe cs = none ↔ '|' ∉ cs := by
  induction cs with
  | nil => simp [indexPipe]
  | cons c cs ih =>
    by_cases hc : c = '|'
    · simp [indexPipe, hc]
    · have hc2 : ¬ '|' = c := fun h => hc h.symm
      simp [indexPipe, hc, hc2, ih]

theorem indexPipe_some (cs : List Char) :
    ∀ i, indexPipe cs = some i →
      '|' ∉ cs.take i ∧ cs.take i ++ '|' :: cs.drop (i + 1) = cs ∧
      cs.dropWhile (fun c => c != '|') = '|' :: cs.drop (i + 1) := by
  induction cs with
  | nil => intro i h; simp [indexPipe] at h
  | cons c cs ih =>
    intro i h
    by_cases hc : c = '|'
    · simp only [indexPipe, hc, if_true, Option.some.injEq] at h
      subst h
      simp [hc]
    · have hc2 : ¬ '|' = c := fun h => hc h.symm
      simp only [indexPipe, hc, if_false] at h
      cases hj : indexPipe cs with
      | none => simp [hj] at h
      | some j =>
        rw [hj] at h
        simp only [Option.map, Option.some.injEq] at h
        subst h
        obtain ⟨h1, h2, h3⟩ := ih j hj
        refine ⟨?_, ?_, ?_⟩
        · simp [hc2, h1]
        · simp [h2]
        · simp [List.dropWhile_cons, hc, h3]

/-- What one turn of the loop does with an entry. -/
theorem parseActionsStep_cases (acts : List ActionItem) (act : String) :
    ('|' ∉ act.data ∧ parseActionsStep acts act = acts) ∨
    ('|' ∈ act.data ∧ ∃ item, parseActionsStep acts act = acts ++ [item] ∧
      ParsedFrom item act) := by
  unfold parseActionsStep SplitN2
  cases h : indexPipe act.data with
  | none =>
    left
    exact ⟨(indexPipe_none _).mp h, rfl⟩
  | some i =>
    right
    obtain ⟨h1, h2, h3⟩ := indexPipe_some _ i h
    refine ⟨?_, _, rfl, rfl, h1, ?_, h3⟩
    · by_contra hn
      exact absurd ((indexPipe_none _).mpr hn) (by simp [h])
    · apply String.ext
      simp [String.data_append, h2]

theorem forall₂_exists_left {α β : Type} {R : α → β → Prop} {l1 : List α} {l2 : List β}
    (h : List.Forall₂ R l1 l2) : ∀ a ∈ l1, ∃ b ∈ l2, R a b := by
  induction h with
  | nil => intro a ha; simp at ha
  | cons hab _ ih =>
    intro a ha
    rcases List.mem_cons.mp ha with rfl | ha
    · exact ⟨_, List.mem_cons_self _ _, hab⟩
    · obtain ⟨b, hb, hr⟩ := ih a ha
      exact ⟨b, List.mem_cons_of_mem _ hb, hr⟩

theorem forall₂_exists_right {α β : Type} {R : α → β → Prop} {l1 : List α} {l2 : List β}
    (h : List.Forall₂ R l1 l2) : ∀ b ∈ l2, ∃ a ∈ l1, R a b := by
  induction h with
  | nil => intro b hb; simp at hb
  | cons hab _ ih =>
    intro b hb
    rcases List.mem_cons.mp hb with rfl | hb
    · exact ⟨_, List.mem_cons_self _ _, hab⟩
    · obtain ⟨a, ha, hr⟩ := ih b hb
      exact ⟨a, List.mem_cons_of_mem _ ha, hr⟩

/-- The loop appends one item per entry that contains the separator. -/
theorem parseActions_foldl (l : List String) :
    ∀ acc, ∃ items, l.foldl parseActionsStep acc = acc ++ items ∧
      List.Forall₂ ParsedFrom items (l.filter (fun e => decide ('|' ∈ e.data))) := by
  induction l with
  | nil => intro acc; exact ⟨[], by simp, by simp⟩
  | cons a l ih =>
    intro acc
    rcases parseActionsStep_cases acc a with ⟨hn, hs⟩ | ⟨hp, item, hs, hitem⟩
    · obtain ⟨items, h1, h2⟩ := ih acc
      refine ⟨items, by simp [List.foldl_cons, hs, h1], ?_⟩
      simpa [List.filter_cons, hn] using h2
    · obtain ⟨items, h1, h2⟩ := ih (acc ++ [item])
      refine ⟨item :: items, by simp [List.foldl_cons, hs, h1], ?_⟩
      simpa [List.filter_cons, hp] using List.Forall₂.cons hitem h2

/-- Only the first four entries are looked at. -/
theorem parseActions_eq (actions : List String) :
    parseActions actions = (actions.take 4).foldl parseActionsStep [] := by
  unfold parseActions
  by_cases h0 : actions.length ≤ 0
  · have : actions = [] := List.length_eq_zero.mp (by omega)
    subst this
    simp
  · rw [if_neg h0]
    by_cases h4 : actions.length > 4
    · simp [h4]
    · simp only [h4, if_false]
      rw [List.take_of_length_le (by omega)]

/-- The items returned, matched one to one with the entries among the first
four that contain the separator. -/
theorem parseActions_spec (actions : List String) :
    List.Forall₂ ParsedFrom (parseActions actions)
      ((actions.take 4).filter (fun e => decide ('|' ∈ e.data))) := by
  obtain ⟨items, h1, h2⟩ := parseActions_foldl (actions.take 4) []
  rw [parseActions_eq, h1]
  simpa using h2

/-- C7: `parseActions` returns at most four items; they correspond one to one,
in order, to a sublist of the input all of whose entries contain `|`, each
item being the name and link of its entry. -/
theorem C7_parseActions_bounded_ordered (actions : List String) :
    (parseActions actions).length ≤ 4 ∧
    ∃ l, List.Sublist l actions ∧ (∀ e ∈ l, '|' ∈ e.data) ∧
      List.Forall₂ (fun item e => item.Name ++ "|" ++ item.Link = e)
        (parseActions actions) l := by
  have hspec := parseActions_spec actions
  refine ⟨?_, _, ?_, ?_, hspec.imp (fun _ _ h => h.2.2.1)⟩
  · rw [hspec.length_eq]
    calc ((actions.take 4).filter (fun e => decide ('|' ∈ e.data))).length
        ≤ (actions.take 4).length := List.length_filter_le _ _
      _ ≤ 4 := by simp
  · exact (List.filter_sublist _).trans (List.take_sublist 4 actions)
  · intro e he
    simpa using (List.mem_filter.mp he).2

/-- C8 (as stated, refuted): the entry `a|` yields an item with an empty link. -/
theorem C8_nonempty_link_counterexample :
    ∃ item ∈ parseActions ["a|"], item.Link = "" :=
  ⟨{ Typ := .ActURL, Name := "a", Link := "" }, by decide, rfl⟩

/-- C8 (amended): every returned item has a non-empty link exactly when no
entry among the first four has its first `|` as its last character. -/
theorem C8_link_nonempty_iff (actions : List String) :
    (∀ item ∈ parseActions actions, item.Link ≠ "") ↔
    (∀ e ∈ actions.take 4, e.data.dropWhile (fun c => c != '|') ≠ ['|']) := by
  have hspec := parseActions_spec actions
  constructor
  · intro h e he hd
    have hp : '|' ∈ e.data := by
      have hm : '|' ∈ e.data.dropWhile (fun c => c != '|') := by simp [hd]
      exact (List.dropWhile_sublist _).subset hm
    have hmem : e ∈ (actions.take 4).filter (fun e => decide ('|' ∈ e.data)) :=
      List.mem_filter.mpr ⟨he, by simpa using hp⟩
    obtain ⟨item, hitem, hpf⟩ := forall₂_exists_right hspec e hmem
    have hl := hpf.2.2.2
    rw [hd] at hl
    have : item.Link.data = [] := by simpa using hl.symm
    exact h item hitem (String.ext this)
  · intro h item hitem hl
    obtain ⟨e, he, hpf⟩ := forall₂_exists_left hspec item hitem
    apply h e (List.mem_filter.mp he).1
    rw [hpf.2.2.2, hl]

/-! ### Timeline items -/

theorem toInt64_of_inRange (v : Int) (h1 : -2 ^ 63 ≤ v) (h2 : v < 2 ^ 63) :
    toInt64 v = v := by
  unfold toInt64
  norm_num at h1 h2 ⊢
  omega

theorem timeItemsStep_eq (tis : List TimeItem) (item : MsgTimeItem)
    (h : intInRange item.Value = true) :
    timeItemsStep tis item = tis ++ (specTimeItem item).toList := by
  unfold timeItemsStep specTimeItem
  cases hv : item.Value <;> simp only [Option.toList, List.append_nil]
  case int v =>
    rw [hv] at h
    simp only [intInRange, decide_eq_true_eq] at h
    rw [toInt64_of_inRange v h.1 h.2]

theorem timeItems_foldl (items : List MsgTimeItem) :
    (∀ it ∈ items, intInRange it.Value = true) →
    ∀ acc, items.foldl timeItemsStep acc = acc ++ items.filterMap specTimeItem := by
  induction items with
  | nil => intro _ acc; simp
  | cons it items ih =>
    intro h acc
    rw [List.foldl_cons, timeItemsStep_eq acc it (h it (List.mem_cons_self _ _)),
      ih (fun x hx => h x (List.mem_cons_of_mem _ hx))]
    cases hs : specTimeItem it <;> simp [List.filterMap_cons, hs]

/-- C9: the content `TimelineContent` stores is the serialization of a
timeline record whose time items are exactly the input items of dynamic type
`int`, `int64` or `float64`, in input order, each with its name and value
(tagged integer or double); items of any other type are left out.  For
`("a", 1), ("b", "text"), ("c", 2.5)` the items are `a = 1` (integer) and
`c = 2.5` (double). -/
theorem C9_TimelineContent_items (d : Deps) (code title : String) (ts : Option Int)
    (now : Int) (items : List MsgTimeItem) (m : Message)
    (hwf : ∀ it ∈ items, intInRange it.Value = true) :
    (∃ ctx tc,
      (TimelineContent d code title ts now items m).pb.Content = d.marshalContent ctx ∧
      ctx.Typ = MsgType.Timeline ∧
      ctx.TimeContent = some tc ∧
      tc.TimeItems = items.filterMap specTimeItem) ∧
    timeItems [{ Name := "a", Value := .int 1 }, { Name := "b", Value := .string "text" },
               { Name := "c", Value := .float64 0x4004000000000000 }] =
      [{ Name := "a", ValueType := .ValueTypeInteger, IntegerValue := 1 },
       { Name := "c", ValueType := .ValueTypeDouble, DoubleValue := 0x4004000000000000 }] := by
  refine ⟨⟨ctxTimeline code title ts now items, _, rfl, rfl, rfl, ?_⟩, by decide⟩
  simpa [timeItems] using timeItems_foldl items hwf []

/-- Witness for C9: the three items of the example. -/
theorem C9_TimelineContent_items_witness :
    (∃ ctx tc,
      (TimelineContent sampleDeps "code" "title" none 0
        [{ Name := "a", Value := .int 1 }, { Name := "b", Value := .string "text" },
         { Name := "c", Value := .float64 0x4004000000000000 }]
        (NewMessage sampleToken)).pb.Content = sampleDeps.marshalContent ctx ∧
      ctx.Typ = MsgType.Timeline ∧
      ctx.TimeContent = some tc ∧
      tc.TimeItems =
        [{ Name := "a", Value := .int 1 }, { Name := "b", Value := .string "text" },
         { Name := "c", Value := .float64 0x4004000000000000 }].filterMap specTimeItem) ∧
    timeItems [{ Name := "a", Value := .int 1 }, { Name := "b", Value := .string "text" },
               { Name := "c", Value := .float64 0x4004000000000000 }] =
      [{ Name := "a", ValueType := .ValueTypeInteger, IntegerValue := 1 },
       { Name := "c", ValueType := .ValueTypeDouble, DoubleValue := 0x4004000000000000 }] :=
  C9_TimelineContent_items sampleDeps "code" "title" none 0 _ (NewMessage sampleToken)
    (by decide)

/-! ### Priority -/

theorem toInt32_of_inRange (v : Int) (h1 : -2 ^ 31 ≤ v) (h2 : v < 2 ^ 31) :
    toInt32 v = v := by
  unfold toInt32
  norm_num at h1 h2 ⊢
  omega

/-- C10: for `0 < p < 0x7fffffff`, `SetPriority(p)` stores exactly `p`, which
fits 32 bits; for `p <= 0` or `p >= 0x7fffffff` an unset priority stays
unset.  On a new envelope 0 and 0x7fffffff leave it unset and 5 sets it to 5. -/
theorem C10_SetPriority (m : Message) (p : Int) :
    (0 < p → p < 0x7fffffff →
      (SetPriority p m).pb.Priority = p ∧ -2 ^ 31 ≤ p ∧ p < 2 ^ 31) ∧
    (p ≤ 0 ∨ 0x7fffffff ≤ p → m.pb.Priority = 0 → (SetPriority p m).pb.Priority = 0) ∧
    (∀ tk, (SetPriority 0 (NewMessage tk)).pb.Priority = 0 ∧
      (SetPriority 0x7fffffff (NewMessage tk)).pb.Priority = 0 ∧
      (SetPriority 5 (NewMessage tk)).pb.Priority = 5) := by
  refine ⟨?_, ?_, ?_⟩
  · intro h1 h2
    have h3 : -2 ^ 31 ≤ p := by norm_num; omega
    have h4 : p < 2 ^ 31 := by norm_num; omega
    refine ⟨?_, h3, h4⟩
    unfold SetPriority
    rw [if_pos ⟨h1, h2⟩]
    exact toInt32_of_inRange p h3 h4
  · intro h hm
    unfold SetPriority
    rw [if_neg (by omega)]
    exact hm
  · intro tk
    exact ⟨rfl, rfl, rfl⟩

/-- Witness for C10: 5 is stored, 0 is ignored. -/
theorem C10_SetPriority_witness :
    ((SetPriority 5 (NewMessage sampleToken)).pb.Priority = 5 ∧
      (-2 ^ 31 : Int) ≤ 5 ∧ (5 : Int) < 2 ^ 31) ∧
    (SetPriority 0 (NewMessage sampleToken)).pb.Priority = 0 :=
  ⟨(C10_SetPriority (NewMessage sampleToken) 5).1 (by decide) (by decide),
   (C10_SetPriority (NewMessage sampleToken) 0).2.1 (Or.inl (by decide)) rfl⟩

/-! ### Interruption level and sound -/

theorem String_length_pos (s : String) (h : s ≠ "") : s.length > 0 := by
  rcases s with ⟨l⟩
  cases l with
  | nil => exact absurd rfl h
  | cons c cs => simp [String.length]

/-- An unrecognized string only overwrites the retained raw string. -/
theorem SetInterruptionLevel_other (d : Deps) (s : String) (m : Message)
    (h1 : s ≠ "active") (h2 : s ≠ "passive") (h3 : s ≠ "time-sensitive") :
    SetInterruptionLevel d s m = { m with ilValue := s } := by
  unfold SetInterruptionLevel
  simp only [h1, h2, h3, if_false, ite_self]

/-- C11: after `SetInterruptionLevel(s)` the retained raw string is `s`; the
field is the active, passive or time-sensitive constant when `s` is exactly
that word; for any other `s`, the empty string included, an unset field stays
unset. -/
theorem C11_SetInterruptionLevel (d : Deps) (m : Message) (s : String) :
    (SetInterruptionLevel d s m).ilValue = s ∧
    (s = "active" → (SetInterruptionLevel d s m).pb.InterruptionLevel = d.IlActive) ∧
    (s = "passive" → (SetInterruptionLevel d s m).pb.InterruptionLevel = d.IlPassive) ∧
    (s = "time-sensitive" →
      (SetInterruptionLevel d s m).pb.InterruptionLevel = d.IlTimeSensitive) ∧
    (s ≠ "active" → s ≠ "passive" → s ≠ "time-sensitive" →
      m.pb.InterruptionLevel = 0 → (SetInterruptionLevel d s m).pb.InterruptionLevel = 0) ∧
    (m.pb.InterruptionLevel = 0 → (SetInterruptionLevel d "" m).pb.InterruptionLevel = 0) := by
  refine ⟨?_, ?_, ?_, ?_, ?_, ?_⟩
  · unfold SetInterruptionLevel
    simp only
    split
    · split
      · rfl
      · split
        · rfl
        · split <;> rfl
    · rfl
  · intro h
    subst h
    rfl
  · intro h
    subst h
    rfl
  · intro h
    subst h
    rfl
  · intro h1 h2 h3 hm
    rw [SetInterruptionLevel_other d s m h1 h2 h3]
    exact hm
  · intro hm
    exact hm

/-- Witness for C11: the word passive on a new envelope, and an unknown word. -/
theorem C11_SetInterruptionLevel_witness :
    (SetInterruptionLevel sampleDeps "passive" (NewMessage sampleToken)).pb.InterruptionLevel
      = sampleDeps.IlPassive ∧
    (SetInterruptionLevel sampleDeps "critical" (NewMessage sampleToken)).pb.InterruptionLevel
      = 0 ∧
    (SetInterruptionLevel sampleDeps "critical" (NewMessage sampleToken)).ilValue
      = "critical" :=
  ⟨(C11_SetInterruptionLevel sampleDeps (NewMessage sampleToken) "passive").2.2.1 rfl,
   (C11_SetInterruptionLevel sampleDeps (NewMessage sampleToken) "critical").2.2.2.2.1
      (by decide) (by decide) (by decide) rfl,
   (C11_SetInterruptionLevel sampleDeps (NewMessage sampleToken) "critical").1⟩

/-- C12: `SoundName(s)` sets the sound to a record named `s` when `s` is
non-empty and not "0"; when `s` is empty or "0" an envelope without a sound
still has none. -/
theorem C12_SoundName (m : Message) (s : String) :
    (s ≠ "" → s ≠ "0" → (SoundName s m).pb.Sound = some { Name := s }) ∧
    (s = "" ∨ s = "0" → m.pb.Sound = none → (SoundName s m).pb.Sound = none) := by
  constructor
  · intro h1 h2
    unfold SoundName
    rw [if_pos ⟨String_length_pos s h1, h2⟩]
  · intro h hm
    unfold SoundName
    rcases h with rfl | rfl
    · rw [if_neg (by decide)]
      exact hm
    · rw [if_neg (by decide)]
      exact hm

/-- Witness for C12: the name bell is stored, the name 0 is ignored. -/
theorem C12_SoundName_witness :
    (SoundName "bell" (NewMessage sampleToken)).pb.Sound = some { Name := "bell" } ∧
    (SoundName "0" (NewMessage sampleToken)).pb.Sound = none :=
  ⟨(C12_SoundName (NewMessage sampleToken) "bell").1 (by decide) (by decide),
   (C12_SoundName (NewMessage sampleToken) "0").2 (Or.inr rfl) rfl⟩

/-! ### Content setters overwrite -/

/-- A content setter always returns, and stores the serialization of its own
record whatever the envelope held. -/
theorem applyOp_setter_Content (d : Deps) (op : Op) (ctx : MsgContent) (m : Message)
    (h : op.payload = some ctx) :
    ∃ m2, applyOp d op m = some m2 ∧ m2.pb.Content = d.marshalContent ctx := by
  cases op <;> simp only [Op.payload, Option.some.injEq] at h <;> first
    | exact absurd h (by simp)
    | (subst h; exact ⟨_, rfl, rfl⟩)

/-- C13: for two content-setting calls `f` then `g`, both return, and the
content after `g(f(m))` equals the content after `g(m)`: it is the
serialization of the record of `g` alone. -/
theorem C13_last_content_wins (d : Deps) (f g : Op) (m : Message)
    (hf : f.isContentSetter = true) (hg : g.isContentSetter = true) :
    ∃ mf mfg mg ctx, applyOp d f m = some mf ∧ applyOp d g mf = some mfg ∧
      applyOp d g m = some mg ∧ g.payload = some ctx ∧
      mfg.pb.Content = mg.pb.Content ∧ mfg.pb.Content = d.marshalContent ctx := by
  obtain ⟨cf, hcf⟩ := Option.isSome_iff_exists.mp hf
  obtain ⟨cg, hcg⟩ := Option.isSome_iff_exists.mp hg
  obtain ⟨mf, h1, _⟩ := applyOp_setter_Content d f cf m hcf
  obtain ⟨mfg, h2, h2c⟩ := applyOp_setter_Content d g cg mf hcg
  obtain ⟨mg, h3, h3c⟩ := applyOp_setter_Content d g cg m hcg
  exact ⟨mf, mfg, mg, cg, h1, h2, h3, hcg, by rw [h2c, h3c], h2c⟩

/-- Witness for C13: a link set after a text leaves the content of the link. -/
theorem C13_last_content_wins_witness :
    ∃ mf mfg mg ctx,
      applyOp sampleDeps (Op.TextContent "hello" "t" "" "") (NewMessage sampleToken) = some mf ∧
      applyOp sampleDeps (Op.LinkContent "https://x") mf = some mfg ∧
      applyOp sampleDeps (Op.LinkContent "https://x") (NewMessage sampleToken) = some mg ∧
      (Op.LinkContent "https://x").payload = some ctx ∧
      mfg.pb.Content = mg.pb.Content ∧ mfg.pb.Content = sampleDeps.marshalContent ctx :=
  C13_last_content_wins sampleDeps (Op.TextContent "hello" "t" "" "")
    (Op.LinkContent "https://x") (NewMessage sampleToken) rfl rfl

/-! ### DisableToken -/

/-- C14: `DisableToken` sets the sender identity and the channel to nil and
leaves the token hash, content, ciphertext, priority, sound, interruption
level, timeline flag and retained raw string as they were. -/
theorem C14_DisableToken (m : Message) :
    (DisableToken m).pb.From = none ∧
    (DisableToken m).pb.Channel = none ∧
    (DisableToken m).pb.TokenHash = m.pb.TokenHash ∧
    (DisableToken m).pb.Content = m.pb.Content ∧
    (DisableToken m).pb.Ciphertext = m.pb.Ciphertext ∧
    (DisableToken m).pb.Priority = m.pb.Priority ∧
    (DisableToken m).pb.Sound = m.pb.Sound ∧
    (DisableToken m).pb.InterruptionLevel = m.pb.InterruptionLevel ∧
    (DisableToken m).isTimeline = m.isTimeline ∧
    (DisableToken m).ilValue = m.ilValue :=
  ⟨rfl, rfl, rfl, rfl, rfl, rfl, rfl, rfl, rfl, rfl⟩

/-! ### Signature check -/

/-- C15: `verifySign` fails closed: it is false for the empty signature with
any message and key, and false for any signature and message with an empty
key, nil or of length zero. -/
theorem C15_verifySign_fail_closed (expected : Slice → Slice → String) :
    (∀ message key, verifySign expected "" message key = false) ∧
    (∀ signature message, verifySign expected signature message none = false) ∧
    (∀ signature message, verifySign expected signature message (some []) = false) := by
  refine ⟨?_, ?_, ?_⟩
  · intro message key
    simp [verifySign]
  · intro signature message
    simp [verifySign, sliceLen]
  · intro signature message
    simp [verifySign, sliceLen]

/-! ### The nonce of `EncryptData` -/

theorem dataNonce_injective (t1 t2 : Nat) (h1 : t1 < 2 ^ 64) (h2 : t2 < 2 ^ 64)
    (h : dataNonce t1 = dataNonce t2) : t1 = t2 := by
  have hp : putUint64 t1 = putUint64 t2 := by
    unfold dataNonce at h
    exact List.append_cancel_left h
  rw [← putUint64_value t1 h1, ← putUint64_value t2 h2, hp]

/-- C16: for timestamps below 2^64 the nonces built for `t1` and `t2` are
equal only if `t1 = t2`; two `EncryptData` results under one key start with
the same twelve bytes exactly when the timestamps are equal. -/
theorem C16_nonce_injective (d : Deps) (key : Bytes) (m1 m2 : Message) (t1 t2 : Nat)
    (hk : key.length = 64) (h1 : t1 < 2 ^ 64) (h2 : t2 < 2 ^ 64) :
    (dataNonce t1 = dataNonce t2 ↔ t1 = t2) ∧
    ∃ o1 e1 o2 e2, EncryptData d key t1 m1 = some (o1, e1) ∧
      EncryptData d key t2 m2 = some (o2, e2) ∧
      (o1.take 12 = o2.take 12 ↔ t1 = t2) := by
  have hinj : dataNonce t1 = dataNonce t2 ↔ t1 = t2 :=
    ⟨dataNonce_injective t1 t2 h1 h2, fun h => by rw [h]⟩
  refine ⟨hinj, _, _, _, _, EncryptData_eq d key t1 m1 (by omega),
    EncryptData_eq d key t2 m2 (by omega), ?_⟩
  rw [dataNonce_take, dataNonce_take]
  exact hinj

/-- Witness for C16: timestamps 258 and 259 give different nonces. -/
theorem C16_nonce_injective_witness :
    (dataNonce 258 = dataNonce 259 ↔ 258 = 259) ∧
    ∃ o1 e1 o2 e2,
      EncryptData sampleDeps sampleKey 258 (NewMessage sampleToken) = some (o1, e1) ∧
      EncryptData sampleDeps sampleKey 259 (NewMessage sampleToken) = some (o2, e2) ∧
      (o1.take 12 = o2.take 12 ↔ 258 = 259) :=
  C16_nonce_injective sampleDeps sampleKey (NewMessage sampleToken) (NewMessage sampleToken)
    258 259 (by decide) (by norm_num) (by norm_num)

/-! ### What `EncryptData` leaves alone -/

theorem fixChannel_idem (d : Deps) (m : Message) :
    fixChannel d (fixChannel d m) = fixChannel d m := by
  unfold fixChannel
  split_ifs <;> rfl

theorem fixChannel_nonempty (d : Deps) (m : Message) (h : sliceLen m.pb.Channel ≠ 0) :
    fixChannel d m = m := by
  unfold fixChannel
  rw [if_neg (by omega)]

theorem fixChannel_fields (d : Deps) (m : Message) :
    (fixChannel d m).pb.From = m.pb.From ∧
    (fixChannel d m).pb.TokenHash = m.pb.TokenHash ∧
    (fixChannel d m).pb.Priority = m.pb.Priority ∧
    (fixChannel d m).pb.Sound = m.pb.Sound ∧
    (fixChannel d m).pb.InterruptionLevel = m.pb.InterruptionLevel ∧
    (fixChannel d m).ilValue = m.ilValue := by
  unfold fixChannel
  split
  · split <;> exact ⟨rfl, rfl, rfl, rfl, rfl, rfl⟩
  · exact ⟨rfl, rfl, rfl, rfl, rfl, rfl⟩

/-- C17: with a 64-byte key `EncryptData` returns and leaves every field of
the envelope other than the channel as it was, content and ciphertext
included; an envelope with a non-empty channel is left unchanged; and a second
`EncryptData` on the envelope the first one left changes nothing more and
seals the same serialized envelope bytes. -/
theorem C17_EncryptData_frame (d : Deps) (m : Message) (key : Bytes) (ts : Nat)
    (hk : key.length = 64) :
    ∃ out m2, EncryptData d key ts m = some (out, m2) ∧
      m2.pb.From = m.pb.From ∧ m2.pb.TokenHash = m.pb.TokenHash ∧
      m2.pb.Content = m.pb.Content ∧ m2.pb.Ciphertext = m.pb.Ciphertext ∧
      m2.pb.Priority = m.pb.Priority ∧ m2.pb.Sound = m.pb.Sound ∧
      m2.pb.InterruptionLevel = m.pb.InterruptionLevel ∧
      m2.isTimeline = m.isTimeline ∧ m2.ilValue = m.ilValue ∧
      (sliceLen m.pb.Channel ≠ 0 → m2 = m) ∧
      out = dataNonce ts ++ d.Seal key (dataNonce ts) (Marshal d m2) (subslice key 32 64) ∧
      (∀ (key2 : Bytes) (ts2 : Nat), key2.length = 64 →
        ∃ out2 m3, EncryptData d key2 ts2 m2 = some (out2, m3) ∧ m3 = m2 ∧
          out2 = dataNonce ts2 ++
            d.Seal key2 (dataNonce ts2) (Marshal d m2) (subslice key2 32 64)) := by
  have hf := fixChannel_frame d m
  have hg := fixChannel_fields d m
  refine ⟨_, _, EncryptData_eq d key ts m (by omega), hg.1, hg.2.1, hf.1, hf.2.1, hg.2.2.1,
    hg.2.2.2.1, hg.2.2.2.2.1, hf.2.2, hg.2.2.2.2.2, fixChannel_nonempty d m, rfl, ?_⟩
  intro key2 ts2 hk2
  refine ⟨_, _, EncryptData_eq d key2 ts2 (fixChannel d m) (by omega), fixChannel_idem d m, ?_⟩
  rw [fixChannel_idem]
  rfl

/-- Witness for C17: a text envelope with no channel, sealed twice. -/
theorem C17_EncryptData_frame_witness :
    ∃ out m2, EncryptData sampleDeps sampleKey 258
        (TextContent sampleDeps "hi" "" "" "" (NewMessage sampleToken)) = some (out, m2) ∧
      m2.pb.Content = some [1, 2] ∧ m2.pb.Ciphertext = none ∧
      ∃ out2 m3, EncryptData sampleDeps sampleKey 259 m2 = some (out2, m3) ∧ m3 = m2 ∧
        out2 = dataNonce 259 ++
          sampleDeps.Seal sampleKey (dataNonce 259) (Marshal sampleDeps m2)
            (subslice sampleKey 32 64) :=
  (fun h => h.elim fun out h2 => h2.elim fun m2 h3 =>
    ⟨out, m2, h3.1, h3.2.2.2.1.trans (by decide), h3.2.2.2.2.1.trans (by decide),
      h3.2.2.2.2.2.2.2.2.2.2.2.2 sampleKey 259 (by decide)⟩)
    (C17_EncryptData_frame sampleDeps
      (TextContent sampleDeps "hi" "" "" "" (NewMessage sampleToken)) sampleKey 258 (by decide))

/-! ### The limit of four and the split -/

/-- C18: `parseActions` looks at the first four entries only, whatever they
are: the result for a list is the result for its first four entries, so an
entry at position five or later never yields an item.  For the six entries of
the example the result is the three items open, b and c. -/
theorem C18_parseActions_limit_first (actions : List String) :
    parseActions actions = parseActions (actions.take 4) ∧
    (∀ (a b c e : String) (rest : List String),
      parseActions (a :: b :: c :: e :: rest) = parseActions [a, b, c, e]) ∧
    parseActions ["open|https://x", "bare-no-pipe", "b|https://y", "c|https://z",
                  "d|https://w", "e|https://v"] =
      [{ Typ := .ActURL, Name := "open", Link := "https://x" },
       { Typ := .ActURL, Name := "b", Link := "https://y" },
       { Typ := .ActURL, Name := "c", Link := "https://z" }] := by
  refine ⟨?_, ?_, by decide⟩
  · rw [parseActions_eq actions, parseActions_eq (actions.take 4), List.take_take]
    simp
  · intro a b c e rest
    rw [parseActions_eq, parseActions_eq]
    rfl

/-- C19: the items returned match, in order, the entries among the first four
that contain `|`; the name of each item has no `|`, name then `|` then link is
exactly the entry, and the link is all that follows the first `|` of the
entry, further `|` included: `a|b|c` gives name `a` and link `b|c`. -/
theorem C19_parseActions_split_first (actions : List String) :
    List.Forall₂
      (fun item e => '|' ∉ item.Name.data ∧ item.Name ++ "|" ++ item.Link = e ∧
        e.data.dropWhile (fun c => c != '|') = '|' :: item.Link.data)
      (parseActions actions)
      ((actions.take 4).filter (fun e => decide ('|' ∈ e.data))) ∧
    parseActions ["a|b|c"] = [{ Typ := .ActURL, Name := "a", Link := "b|c" }] :=
  ⟨(parseActions_spec actions).imp (fun _ _ h => ⟨h.2.1, h.2.2.1, h.2.2.2⟩), by decide⟩

/-! ### Ignored setter arguments -/

/-- C20: an ignored argument keeps the former value: `SetPriority` with
`p <= 0` or `p >= 0x7fffffff` and `SoundName` with the empty string or "0"
return the envelope unchanged, and `SetInterruptionLevel` with a string that
is none of the three words changes only the retained raw string, which
becomes that string. -/
theorem C20_ignored_argument_keeps_value (d : Deps) (m : Message) (p : Int) (s : String) :
    (p ≤ 0 ∨ 0x7fffffff ≤ p →
      SetPriority p m = m ∧ (SetPriority p m).pb.Priority = m.pb.Priority) ∧
    (s = "" ∨ s = "0" → SoundName s m = m ∧ (SoundName s m).pb.Sound = m.pb.Sound) ∧
    (s ≠ "active" → s ≠ "passive" → s ≠ "time-sensitive" →
      (SetInterruptionLevel d s m).pb.InterruptionLevel = m.pb.InterruptionLevel ∧
      (SetInterruptionLevel d s m).ilValue = s ∧
      SetInterruptionLevel d s m = { m with ilValue := s }) := by
  refine ⟨?_, ?_, ?_⟩
  · intro h
    have : SetPriority p m = m := by
      unfold SetPriority
      rw [if_neg (by omega)]
    exact ⟨this, by rw [this]⟩
  · intro h
    have : SoundName s m = m := by
      unfold SoundName
      rcases h with rfl | rfl <;> rw [if_neg (by decide)]
    exact ⟨this, by rw [this]⟩
  · intro h1 h2 h3
    have := SetInterruptionLevel_other d s m h1 h2 h3
    exact ⟨by rw [this], by rw [this], this⟩

/-- Witness for C20: an envelope with priority 7, sound bell and interruption
level 2 keeps all three under ignored arguments. -/
theorem C20_ignored_argument_keeps_value_witness :
    (SetPriority 0x7fffffff
        { pb := { Priority := 7, Sound := some { Name := "bell" }, InterruptionLevel := 2 } }
      ).pb.Priority = 7 ∧
    (SoundName "0"
        { pb := { Priority := 7, Sound := some { Name := "bell" }, InterruptionLevel := 2 } }
      ).pb.Sound = some { Name := "bell" } ∧
    (SetInterruptionLevel sampleDeps "critical"
        { pb := { Priority := 7, Sound := some { Name := "bell" }, InterruptionLevel := 2 } }
      ).pb.InterruptionLevel = 2 ∧
    (SetInterruptionLevel sampleDeps "critical"
        { pb := { Priority := 7, Sound := some { Name := "bell" }, InterruptionLevel := 2 } }
      ).ilValue = "critical" :=
  ⟨((C20_ignored_argument_keeps_value sampleDeps
      { pb := { Priority := 7, Sound := some { Name := "bell" }, InterruptionLevel := 2 } }
      0x7fffffff "0").1 (Or.inr (by decide))).2,
   ((C20_ignored_argument_keeps_value sampleDeps
      { pb := { Priority := 7, Sound := some { Name := "bell" }, InterruptionLevel := 2 } }
      0x7fffffff "0").2.1 (Or.inr rfl)).2,
   ((C20_ignored_argument_keeps_value sampleDeps
      { pb := { Priority := 7, Sound := some { Name := "bell" }, InterruptionLevel := 2 } }
      0 "critical").2.2 (by decide) (by decide) (by decide)).1,
   ((C20_ignored_argument_keeps_value sampleDeps
      { pb := { Priority := 7, Sound := some { Name := "bell" }, InterruptionLevel := 2 } }
      0 "critical").2.2 (by decide) (by decide) (by decide)).2.1⟩

end Chanify
